import Mathlib

/-
Verification development for the Bengali transcriber application
(src/app.py, src/models.py, src/database.py, src/pages/2_My_Transcripts.py).

The pipeline logic of app.py is embedded shallowly:

* Text is modelled as `List Char` (wrappers taking `String` keep the
  Python function names).  The regular expressions of app.py are
  deterministic on their character classes (every greedy/lazy
  sub-pattern is followed by a character that cannot extend it), so they
  are embedded as direct maximal-munch scanners.
* The Python classes `\d` and `\s` match Unicode digits and whitespace.
  The model restricts `\d` to the ASCII and Bengali digit ranges and
  `\s` to the six ASCII whitespace characters — exactly the characters
  this application produces and consumes (prompts demand `[HH:MM:SS.mmm]`
  tags and `বক্তা <bengali digit>` labels).
* Machine floats appear only in `time_sec = h*3600+m*60+s+ms/1000.0`
  and in `timedelta` arithmetic on whole milliseconds.  All values the
  program builds are exact multiples of 1 ms and far below 2^52, where
  the float computations of the source are exact, so time is modelled
  as integer milliseconds with a derived rational `time_sec`.
* External effects (the Gemini API, json decoding of its reply, the
  SQLite store) are modelled as explicit parameters: a per-chunk result
  oracle, an `Option (List String)` for the decoded translation reply,
  and a `List` state for each database table.
* The scanners recurse on an explicit fuel argument initialised with the
  input length (enough for the whole input, as the fuel lemmas below
  prove), which keeps every definition kernel-computable.
-/

namespace App

/-! ### Character classes of the regexes in app.py -/

/-- Python regex class `\s`, restricted to ASCII whitespace. -/
def isSpaceRe (c : Char) : Bool :=
  c = ' ' || c = '\t' || c = '\n' || c = '\r' || c = '\x0b' || c = '\x0c'

/-- Python regex class `\d`, restricted to ASCII digits `0`-`9` and
Bengali digits `০`-`৯` (U+09E6 – U+09EF). -/
def isDigitRe (c : Char) : Bool :=
  (('0' ≤ c) && (c ≤ '9')) || (('০' ≤ c) && (c ≤ '৯'))

/-- Numeric value of a digit accepted by `isDigitRe`; models Python
`int()` on a matched digit (which accepts Bengali digits as well). -/
def digitVal (c : Char) : Nat :=
  if ('0' ≤ c) && (c ≤ '9') then c.toNat - '0'.toNat else c.toNat - 0x09E6

/-! ### The timestamp tag `\[(\d{2}):(\d{2}):(\d{2})\.(\d{3})\]` -/

/-- The nine digit characters captured by one bracketed timestamp tag. -/
structure TsTag where
  (h1 h2 m1 m2 s1 s2 x1 x2 x3 : Char)
deriving DecidableEq, Repr

def TsTag.hour (t : TsTag) : Nat := digitVal t.h1 * 10 + digitVal t.h2

def TsTag.minute (t : TsTag) : Nat := digitVal t.m1 * 10 + digitVal t.m2

def TsTag.second (t : TsTag) : Nat := digitVal t.s1 * 10 + digitVal t.s2

def TsTag.millis (t : TsTag) : Nat :=
  digitVal t.x1 * 100 + digitVal t.x2 * 10 + digitVal t.x3

/-- Total time of a tag in milliseconds. -/
def TsTag.totalMs (t : TsTag) : Nat :=
  (t.hour * 3600 + t.minute * 60 + t.second) * 1000 + t.millis

/-- Match the tag pattern `\[(\d{2}):(\d{2}):(\d{2})\.(\d{3})\]` at the
head of the character list. -/
def matchTag : List Char → Option TsTag
  | '[' :: h1 :: h2 :: ':' :: m1 :: m2 :: ':' :: s1 :: s2 :: '.' :: x1 :: x2 :: x3 :: ']' :: _ =>
    if isDigitRe h1 && isDigitRe h2 && isDigitRe m1 && isDigitRe m2 &&
       isDigitRe s1 && isDigitRe s2 && isDigitRe x1 && isDigitRe x2 && isDigitRe x3 then
      some ⟨h1, h2, m1, m2, s1, s2, x1, x2, x3⟩
    else none
  | _ => none

/-- A token of the raw transcription text: a full timestamp tag, or one
plain character.  A valid tag contains `[` only at its first position,
so two tag occurrences can never overlap and the left-to-right
non-overlapping scan below recognises exactly the tag occurrences that
`re.sub` / `re.finditer` recognise. -/
inductive Tok where
  | tstamp (t : TsTag)
  | chr (c : Char)
deriving DecidableEq, Repr

/-- Left-to-right tag scan, on fuel (one unit per character position). -/
def tokenizeAux : Nat → List Char → List Tok
  | 0, _ => []
  | _ + 1, [] => []
  | fuel + 1, c :: rest =>
    match matchTag (c :: rest) with
    | some t => Tok.tstamp t :: tokenizeAux fuel (rest.drop 13)
    | none => Tok.chr c :: tokenizeAux fuel rest

def tokenize (l : List Char) : List Tok := tokenizeAux l.length l

/-! ### `_offset_timestamps` (app.py lines 135-146) -/

/-- Decimal digits of `n`, left-padded with `0` to width `w`; models the
Python format specifier `{:0wd}`. -/
def padDigits (w n : Nat) : List Char :=
  let ds := Nat.toDigits 10 n
  List.replicate (w - ds.length) '0' ++ ds

/-- `f"[{h:02d}:{m:02d}:{s:02d}.{ms:03d}]"`. -/
def renderTag (h m s ms : Nat) : List Char :=
  '[' :: (padDigits 2 h ++ ':' :: padDigits 2 m ++ ':' :: padDigits 2 s ++
    '.' :: padDigits 3 ms ++ [']'])

/-- The `replacer` of `_offset_timestamps`: add the offset to the tag's
time and re-render it.  `timedelta` arithmetic and the float
`total_seconds` divisions of the source are exact at this scale and
reduce to the integer divisions below. -/
def offsetTag (offsetMs : Nat) (t : TsTag) : List Char :=
  let totalMs := t.totalMs + offsetMs
  renderTag (totalMs / 1000 / 3600) (totalMs / 1000 % 3600 / 60)
    (totalMs / 1000 % 60) (totalMs % 1000)

/-- `pattern.sub(replacer, transcription_text)`, on fuel. -/
def offsetLoopAux (offsetMs : Nat) : Nat → List Char → List Char
  | 0, _ => []
  | _ + 1, [] => []
  | fuel + 1, c :: rest =>
    match matchTag (c :: rest) with
    | some t => offsetTag offsetMs t ++ offsetLoopAux offsetMs fuel (rest.drop 13)
    | none => c :: offsetLoopAux offsetMs fuel rest

def offsetLoop (offsetMs : Nat) (l : List Char) : List Char :=
  offsetLoopAux offsetMs l.length l

/-- `_offset_timestamps(transcription_text, offset_seconds)`.  In every
call site `offset_seconds` is a whole number of seconds
(`start_ms / 1000` with `start_ms` a multiple of `CHUNK_LENGTH_MS`). -/
def _offset_timestamps (transcription_text : String) (offset_seconds : Nat) : String :=
  String.mk (offsetLoop (offset_seconds * 1000) transcription_text.data)

/-- Replacement of one token under the offset substitution (tags are
replaced, plain characters kept). -/
def offTok (offsetMs : Nat) : Tok → List Char
  | Tok.tstamp t => offsetTag offsetMs t
  | Tok.chr c => [c]

/-! ### `parse_timestamped_transcription` (app.py lines 230-236) -/

/-- Strip ASCII whitespace from both ends; models Python `str.strip()`
on the whitespace this pipeline produces. -/
def stripChars (l : List Char) : List Char :=
  ((l.dropWhile isSpaceRe).reverse.dropWhile isSpaceRe).reverse

/-- The literal `বক্তা` (five code points) of the speaker pattern. -/
def speakerLit : List Char := ['ব', 'ক', '্', 'ত', 'া']

/-- First alternative `বক্তা\s*\d+` of the speaker group; returns the
captured characters and the remaining input.  The greedy `\s*` and
`\d+` are deterministic because whitespace and digits are disjoint and
the following `\s*:` cannot start with a digit. -/
def tryNamedSpeaker : List Char → Option (List Char × List Char)
  | 'ব' :: 'ক' :: '্' :: 'ত' :: 'া' :: r =>
    let ws := r.takeWhile isSpaceRe
    let r1 := r.dropWhile isSpaceRe
    let ds := r1.takeWhile isDigitRe
    if ds.isEmpty then none
    else some (speakerLit ++ (ws ++ ds), r1.drop ds.length)
  | _ => none

/-- The sub-pattern `\s*(বক্তা\s*\d+|\?+)\s*:\s*` that must follow a
timestamp tag; returns the captured speaker group and the rest of the
input (the text region). -/
def matchSpeaker (l : List Char) : Option (List Char × List Char) :=
  let l1 := l.dropWhile isSpaceRe
  let spk :=
    match tryNamedSpeaker l1 with
    | some r => some r
    | none =>
      let qs := l1.takeWhile (fun c => c = '?')
      if qs.isEmpty then none else some (qs, l1.drop qs.length)
  match spk with
  | none => none
  | some (cap, r) =>
    match r.dropWhile isSpaceRe with
    | ':' :: r2 => some (cap, r2.dropWhile isSpaceRe)
    | _ => none

/-- One parsed segment: the dict built in `parse_timestamped_transcription`.
`time_sec` of the source is the float `h*3600+m*60+s+ms/1000.0`, stored
here exactly as milliseconds. -/
structure Segment where
  id : String
  time_ms : Nat
  timestamp : String
  speaker : String
  text : String
deriving DecidableEq, Repr

/-- The `time_sec` value of a segment, as an exact rational. -/
def Segment.time_sec (s : Segment) : ℚ := (s.time_ms : ℚ) / 1000

def mkSegment (i : Nat) (t : TsTag) (spk txt : List Char) : Segment :=
  { id := "segment_" ++ toString i
    time_ms := t.totalMs
    timestamp := String.mk ('[' :: t.h1 :: t.h2 :: ':' :: t.m1 :: t.m2 :: ':' :: t.s1 :: t.s2 :: [']'])
    speaker := String.mk (stripChars spk ++ [':'])
    text := String.mk (stripChars txt) }

def chrVal : Tok → Option Char
  | Tok.chr c => some c
  | Tok.tstamp _ => none

def isChrTok (t : Tok) : Bool := (chrVal t).isSome

/-- The plain characters between the current position and the next
timestamp tag: the region in which the speaker group must match and in
which the lazy text capture `([\s\S]*?)(?=tag|\Z)` ends. -/
def leadChars (l : List Tok) : List Char := (l.takeWhile isChrTok).filterMap chrVal

/-- `pattern.finditer` with segment construction, on fuel.  A failed
match at a tag position resumes one character later, and the next
possible match start is the next tag (tags cannot overlap), which is
exactly what skipping the current token does. -/
def parseLoopAux : Nat → List Tok → Nat → List Segment
  | 0, _, _ => []
  | _ + 1, [], _ => []
  | fuel + 1, Tok.chr _ :: rest, i => parseLoopAux fuel rest i
  | fuel + 1, Tok.tstamp t :: rest, i =>
    match matchSpeaker (leadChars rest) with
    | none => parseLoopAux fuel rest i
    | some (spk, txt) =>
      mkSegment i t spk txt ::
        parseLoopAux fuel (rest.drop (rest.takeWhile isChrTok).length) (i + 1)

/-- `parse_timestamped_transcription(raw_text)` (app.py lines 230-236). -/
def parse_timestamped_transcription (raw_text : String) : List Segment :=
  parseLoopAux (tokenize raw_text.data).length (tokenize raw_text.data) 0

/-! ### `transcribe_audio_with_gemini` (app.py lines 176-212) -/

def CHUNK_LENGTH_MINUTES : Nat := 10

def CHUNK_LENGTH_MS : Nat := CHUNK_LENGTH_MINUTES * 60 * 1000

/-- `math.ceil(duration_ms / CHUNK_LENGTH_MS)`: the float division is
exact enough at audio-length scale that the ceiling agrees with the
integer formula below. -/
def num_chunks (duration_ms : Nat) : Nat :=
  (duration_ms + CHUNK_LENGTH_MS - 1) / CHUNK_LENGTH_MS

/-- The chunk windows the orchestrator slices: the single-chunk branch
for `duration_ms ≤ CHUNK_LENGTH_MS`, otherwise
`processed_audio[i*CHUNK_LENGTH_MS:(i+1)*CHUNK_LENGTH_MS]` for each
`i < num_chunks` (pydub slicing clamps the end to the duration). -/
def chunk_bounds (duration_ms : Nat) : List (Nat × Nat) :=
  if duration_ms ≤ CHUNK_LENGTH_MS then [(0, duration_ms)]
  else (List.range (num_chunks duration_ms)).map
    (fun i => (i * CHUNK_LENGTH_MS, min ((i + 1) * CHUNK_LENGTH_MS) duration_ms))

/-- Does `pat` occur as a contiguous substring? Models Python `in`. -/
def containsSeq (pat l : List Char) : Bool :=
  l.tails.any (fun s => pat.isPrefixOf s)

/-- The failure test of the chunk loop:
`if not raw_chunk_transcription or "Error:" in raw_chunk_transcription`. -/
def chunk_failed (raw : List Char) : Bool :=
  raw.isEmpty || containsSeq "Error:".data raw

/-- `f"[{h:02d}:{m:02d}:{s:02d}.000] বক্তা ?: [TRANSCRIPTION FAILED]"`,
with `h, m, s` computed from `timedelta(seconds=start_ms / 1000)` (a
whole number of seconds at every call site). -/
def sentinel_line (start_ms : Nat) : List Char :=
  let t := start_ms / 1000
  renderTag (t / 3600) (t % 3600 / 60) (t % 60) 0 ++
    (' ' :: speakerLit) ++ " ?: [TRANSCRIPTION FAILED]".data

/-- The body of the per-chunk loop, given the text the (cached) API
call `_transcribe_chunk` returned for chunk `i`: a failed chunk is
replaced by the sentinel line, a successful one has its timestamps
offset by the chunk start. -/
def process_chunk (chunkResult : Nat → List Char) (i : Nat) : List Char :=
  let start_ms := i * CHUNK_LENGTH_MS
  let raw := chunkResult i
  if chunk_failed raw then sentinel_line start_ms
  else offsetLoop (start_ms / 1000 * 1000) raw

/-- The multi-chunk branch of `transcribe_audio_with_gemini`:
process every chunk in order and join with `"\n"`.  `chunkResult` is
the oracle for the external API. -/
def transcribe_audio_with_gemini_long (chunkResult : Nat → List Char) (duration_ms : Nat) :
    List Char :=
  List.intercalate ['\n'] ((List.range (num_chunks duration_ms)).map (process_chunk chunkResult))

/-! ### `_translate_text_with_gemini` (app.py lines 112-133) and its
caller (app.py lines 354-358) -/

/-- `_translate_text_with_gemini(transcript_data)` after the API reply
has been cleaned and decoded: `decodedJson = none` models
`json.loads` raising (malformed reply, caught, returns `None`);
`some ts` models a decoded array of strings. -/
def _translate_text_with_gemini (transcript_data : List Segment)
    (decodedJson : Option (List String)) : Option (List Segment) :=
  match decodedJson with
  | none => none
  | some translated_texts =>
    if translated_texts.length ≠ transcript_data.length then none
    else some (List.zipWith (fun segment t => { segment with text := t })
      transcript_data translated_texts)

/-- The caller in `main`: `translated_data` is only adopted when the
translation returned a truthy (non-`None`, non-empty) value, otherwise
the original segments stay on display. -/
def displayAfterTranslate (transcript_data : List Segment)
    (decodedJson : Option (List String)) : List Segment :=
  match _translate_text_with_gemini transcript_data decodedJson with
  | some td => if td.isEmpty then transcript_data else td
  | none => transcript_data

/-! ### Persistence layer (app.py lines 59-109, models.py,
pages/2_My_Transcripts.py lines 16-33).  Each table is modelled as the
list of its rows in insertion order; `id` is the autoincrement primary
key. -/

structure User where
  id : Nat
  username : String
  hashed_password : String
  role : String
deriving DecidableEq, Repr

/-- `add_new_user(username, password, role)` (app.py lines 59-70),
with the password hash function and the fresh primary key as
parameters.  Returns the `(success, message)` pair and the new table
state. -/
def add_new_user (hash : String → String) (db : List User)
    (username password role : String) (newId : Nat) : (Bool × String) × List User :=
  if db.any (fun u => u.username == username) then
    ((false, "User already exists."), db)
  else
    ((true, "User '" ++ username ++ "' created."),
      db ++ [{ id := newId, username := username,
               hashed_password := hash password, role := role }])

structure Transcript where
  id : Nat
  title : String
  original_filename : String
  content : List Segment
  created_at : Nat
  owner_id : Nat
deriving DecidableEq, Repr

/-- The new row `Transcript(title=..., original_filename=...,
content=..., owner_id=...)` inserted by a save, with fresh primary key
`newId` and `created_at` defaulted to the commit time `now`. -/
def savedRow (user_id : Nat) (title filename : String) (content : List Segment)
    (newId now : Nat) : Transcript :=
  { id := newId, title := title, original_filename := filename,
    content := content, created_at := now, owner_id := user_id }

/-- `save_transcript_to_db(user_id, title, filename, content)`
(app.py lines 79-95). -/
def save_transcript_to_db (db : List Transcript) (user_id : Nat)
    (title filename : String) (content : List Segment) (newId now : Nat) : List Transcript :=
  db ++ [savedRow user_id title filename content newId now]

/-- The `ORDER BY created_at DESC` relation. -/
def byNewest (a b : Transcript) : Prop := b.created_at ≤ a.created_at

instance : DecidableRel byNewest := fun a b => Nat.decLe b.created_at a.created_at

instance : IsTotal Transcript byNewest :=
  ⟨fun a b => Nat.le_total b.created_at a.created_at⟩

instance : IsTrans Transcript byNewest :=
  ⟨fun _ _ _ hab hbc => le_trans hbc hab⟩

/-- `get_user_transcripts(user_id)` (app.py lines 97-102 and
pages/2_My_Transcripts.py lines 16-21): the rows with this owner,
ordered by creation time descending. -/
def get_user_transcripts (db : List Transcript) (user_id : Nat) : List Transcript :=
  List.insertionSort byNewest (db.filter (fun t => t.owner_id == user_id))

/-- `delete_transcript_from_db(transcript_id)`
(pages/2_My_Transcripts.py lines 23-33): find the first row with this
id; if present delete that row and report `True`, else `False`. -/
def delete_transcript_from_db (db : List Transcript) (transcript_id : Nat) :
    Bool × List Transcript :=
  match db.find? (fun t => t.id == transcript_id) with
  | some _ => (true, db.eraseP (fun t => t.id == transcript_id))
  | none => (false, db)

/-- Does a full match of the segment pattern start at this token
position?  (A tag, followed by the speaker/colon sub-pattern in the
plain characters before the next tag.) -/
def matchesAt : List Tok → Bool
  | Tok.tstamp _ :: rest => (matchSpeaker (leadChars rest)).isSome
  | _ => false

/-! ## Fuel elimination for the scanners -/

theorem tokenizeAux_nil (fuel : Nat) : tokenizeAux fuel [] = [] := by
  cases fuel <;> rfl

theorem tokenizeAux_cons (fuel : Nat) (c : Char) (rest : List Char) :
    tokenizeAux (fuel + 1) (c :: rest) =
      match matchTag (c :: rest) with
      | some t => Tok.tstamp t :: tokenizeAux fuel (rest.drop 13)
      | none => Tok.chr c :: tokenizeAux fuel rest := rfl

theorem tokenizeAux_fuel (fuel1 : Nat) :
    ∀ (fuel2 : Nat) (l : List Char), l.length ≤ fuel1 → l.length ≤ fuel2 →
      tokenizeAux fuel1 l = tokenizeAux fuel2 l := by
  induction fuel1 with
  | zero =>
    intro fuel2 l h1 _
    have hl : l = [] := List.length_eq_zero.mp (Nat.le_zero.mp h1)
    subst hl
    simp [tokenizeAux_nil]
  | succ f ih =>
    intro fuel2 l h1 h2
    cases l with
    | nil => simp [tokenizeAux_nil]
    | cons c rest =>
      cases fuel2 with
      | zero => simp at h2
      | succ f2 =>
        rw [tokenizeAux_cons, tokenizeAux_cons]
        simp only [List.length_cons] at h1 h2
        cases hm : matchTag (c :: rest) with
        | some t =>
          have hd : (rest.drop 13).length ≤ f := by
            simp only [List.length_drop]; omega
          have hd2 : (rest.drop 13).length ≤ f2 := by
            simp only [List.length_drop]; omega
          simp only [ih f2 (rest.drop 13) hd hd2]
        | none =>
          simp only [ih f2 rest (by omega) (by omega)]

theorem tokenize_nil : tokenize [] = [] := rfl

theorem tokenize_cons (c : Char) (rest : List Char) :
    tokenize (c :: rest) =
      match matchTag (c :: rest) with
      | some t => Tok.tstamp t :: tokenize (rest.drop 13)
      | none => Tok.chr c :: tokenize rest := by
  show tokenizeAux (rest.length + 1) (c :: rest) = _
  rw [tokenizeAux_cons]
  cases hm : matchTag (c :: rest) with
  | some t =>
    simp only []
    rw [tokenizeAux_fuel rest.length (rest.drop 13).length (rest.drop 13)
      (by simp only [List.length_drop]; omega) (le_refl _)]
    rfl
  | none =>
    simp only []
    rfl

theorem offsetLoopAux_nil (offsetMs fuel : Nat) : offsetLoopAux offsetMs fuel [] = [] := by
  cases fuel <;> rfl

theorem offsetLoopAux_cons (offsetMs fuel : Nat) (c : Char) (rest : List Char) :
    offsetLoopAux offsetMs (fuel + 1) (c :: rest) =
      match matchTag (c :: rest) with
      | some t => offsetTag offsetMs t ++ offsetLoopAux offsetMs fuel (rest.drop 13)
      | none => c :: offsetLoopAux offsetMs fuel rest := rfl

/-- The substitution of `_offset_timestamps` replaces exactly the tag
occurrences of the left-to-right scan (the tokenization), keeping the
plain text in between. -/
theorem offsetLoopAux_eq_tokens (offsetMs fuel : Nat) :
    ∀ l : List Char, l.length ≤ fuel →
      offsetLoopAux offsetMs fuel l = ((tokenizeAux fuel l).map (offTok offsetMs)).flatten := by
  induction fuel with
  | zero =>
    intro l h
    have hl : l = [] := List.length_eq_zero.mp (Nat.le_zero.mp h)
    subst hl
    simp [offsetLoopAux_nil, tokenizeAux_nil]
  | succ f ih =>
    intro l h
    cases l with
    | nil => simp [offsetLoopAux_nil, tokenizeAux_nil]
    | cons c rest =>
      rw [offsetLoopAux_cons, tokenizeAux_cons]
      simp only [List.length_cons] at h
      cases hm : matchTag (c :: rest) with
      | some t =>
        have hd : (rest.drop 13).length ≤ f := by
          simp only [List.length_drop]; omega
        simp [ih (rest.drop 13) hd, offTok]
      | none =>
        simp [ih rest (by omega), offTok]

theorem offsetLoop_eq_tokens (offsetMs : Nat) (l : List Char) :
    offsetLoop offsetMs l = ((tokenize l).map (offTok offsetMs)).flatten :=
  offsetLoopAux_eq_tokens offsetMs l.length l (le_refl _)

/-! ## Decimal rendering -/

theorem toDigitsCore_small (fuel n : Nat) (ds : List Char) (hf : 0 < fuel) (h : n < 10) :
    Nat.toDigitsCore 10 fuel n ds = Nat.digitChar n :: ds := by
  cases fuel with
  | zero => omega
  | succ f =>
    simp [Nat.toDigitsCore, Nat.div_eq_of_lt h, Nat.mod_eq_of_lt h]

theorem toDigitsCore_mid (fuel n : Nat) (ds : List Char) (hf : 1 < fuel)
    (h1 : 10 ≤ n) (h2 : n < 100) :
    Nat.toDigitsCore 10 fuel n ds =
      Nat.digitChar (n / 10) :: Nat.digitChar (n % 10) :: ds := by
  cases fuel with
  | zero => omega
  | succ f =>
    have hn : ¬ n / 10 = 0 := by omega
    simp only [Nat.toDigitsCore, hn, if_false]
    exact toDigitsCore_small f (n / 10) _ (by omega) (by omega)

theorem toDigitsCore_big (fuel n : Nat) (ds : List Char) (hf : 2 < fuel)
    (h1 : 100 ≤ n) (h2 : n < 1000) :
    Nat.toDigitsCore 10 fuel n ds =
      Nat.digitChar (n / 100) :: Nat.digitChar (n / 10 % 10) :: Nat.digitChar (n % 10) :: ds := by
  cases fuel with
  | zero => omega
  | succ f =>
    have hn : ¬ n / 10 = 0 := by omega
    simp only [Nat.toDigitsCore, hn, if_false]
    rw [toDigitsCore_mid f (n / 10) _ (by omega) (by omega) (by omega)]
    congr 2
    omega

theorem padDigits_two (n : Nat) (h : n < 100) :
    padDigits 2 n = [Nat.digitChar (n / 10), Nat.digitChar (n % 10)] := by
  rcases Nat.lt_or_ge n 10 with h10 | h10
  · have ht : Nat.toDigits 10 n = [Nat.digitChar n] :=
      toDigitsCore_small (n + 1) n [] (by omega) h10
    have hd : n / 10 = 0 := by omega
    have hm : n % 10 = n := by omega
    simp [padDigits, ht, hd, hm, List.replicate]
    rfl
  · have ht : Nat.toDigits 10 n = [Nat.digitChar (n / 10), Nat.digitChar (n % 10)] :=
      toDigitsCore_mid (n + 1) n [] (by omega) h10 h
    simp [padDigits, ht, List.replicate]

theorem padDigits_three (n : Nat) (h : n < 1000) :
    padDigits 3 n =
      [Nat.digitChar (n / 100), Nat.digitChar (n / 10 % 10), Nat.digitChar (n % 10)] := by
  rcases Nat.lt_or_ge n 10 with h10 | h10
  · have ht : Nat.toDigits 10 n = [Nat.digitChar n] :=
      toDigitsCore_small (n + 1) n [] (by omega) h10
    have hd : n / 100 = 0 := by omega
    have hd2 : n / 10 % 10 = 0 := by omega
    have hm : n % 10 = n := by omega
    simp [padDigits, ht, hd, hd2, hm, List.replicate]
    constructor
  · rcases Nat.lt_or_ge n 100 with h100 | h100
    · have ht : Nat.toDigits 10 n = [Nat.digitChar (n / 10), Nat.digitChar (n % 10)] :=
        toDigitsCore_mid (n + 1) n [] (by omega) h10 h100
      have hd : n / 100 = 0 := by omega
      have hd2 : n / 10 % 10 = n / 10 := by omega
      simp [padDigits, ht, hd, hd2, List.replicate]
      decide
    · have ht : Nat.toDigits 10 n =
          [Nat.digitChar (n / 100), Nat.digitChar (n / 10 % 10), Nat.digitChar (n % 10)] :=
        toDigitsCore_big (n + 1) n [] (by omega) h100 h
      simp [padDigits, ht, List.replicate]

theorem digitChar_spec : ∀ d : Nat, d < 10 →
    isDigitRe (Nat.digitChar d) = true ∧ digitVal (Nat.digitChar d) = d := by decide

/-- Rendering a time whose components fit the field widths produces a
string that the tag pattern parses back to the same components. -/
theorem matchTag_renderTag (h m s ms : Nat)
    (hh : h < 100) (hm : m < 100) (hs : s < 100) (hms : ms < 1000) :
    ∃ t : TsTag, matchTag (renderTag h m s ms) = some t
      ∧ t.hour = h ∧ t.minute = m ∧ t.second = s ∧ t.millis = ms := by
  rw [renderTag, padDigits_two h hh, padDigits_two m hm, padDigits_two s hs,
    padDigits_three ms hms]
  have dig : ∀ d : Nat, d < 10 → isDigitRe (Nat.digitChar d) = true :=
    fun d hd => (digitChar_spec d hd).1
  have val : ∀ d : Nat, d < 10 → digitVal (Nat.digitChar d) = d :=
    fun d hd => (digitChar_spec d hd).2
  refine ⟨⟨Nat.digitChar (h / 10), Nat.digitChar (h % 10),
          Nat.digitChar (m / 10), Nat.digitChar (m % 10),
          Nat.digitChar (s / 10), Nat.digitChar (s % 10),
          Nat.digitChar (ms / 100), Nat.digitChar (ms / 10 % 10), Nat.digitChar (ms % 10)⟩,
    ?_, ?_, ?_, ?_, ?_⟩
  · show matchTag ('[' :: _) = _
    simp only [List.cons_append, List.nil_append, List.append_assoc]
    rw [matchTag]
    rw [if_pos]
    simp only [dig (h / 10) (by omega), dig (h % 10) (by omega),
      dig (m / 10) (by omega), dig (m % 10) (by omega),
      dig (s / 10) (by omega), dig (s % 10) (by omega),
      dig (ms / 100) (by omega), dig (ms / 10 % 10) (by omega),
      dig (ms % 10) (by omega), Bool.and_self]
  · show digitVal (Nat.digitChar (h / 10)) * 10 + digitVal (Nat.digitChar (h % 10)) = h
    rw [val (h / 10) (by omega), val (h % 10) (by omega)]; omega
  · show digitVal (Nat.digitChar (m / 10)) * 10 + digitVal (Nat.digitChar (m % 10)) = m
    rw [val (m / 10) (by omega), val (m % 10) (by omega)]; omega
  · show digitVal (Nat.digitChar (s / 10)) * 10 + digitVal (Nat.digitChar (s % 10)) = s
    rw [val (s / 10) (by omega), val (s % 10) (by omega)]; omega
  · show digitVal (Nat.digitChar (ms / 100)) * 100 + digitVal (Nat.digitChar (ms / 10 % 10)) * 10
        + digitVal (Nat.digitChar (ms % 10)) = ms
    rw [val (ms / 100) (by omega), val (ms / 10 % 10) (by omega), val (ms % 10) (by omega)]
    omega

/-! ## Parser lemmas -/

theorem parseLoopAux_tstamp (f : Nat) (t : TsTag) (rest : List Tok) (i : Nat) :
    parseLoopAux (f + 1) (Tok.tstamp t :: rest) i =
      match matchSpeaker (leadChars rest) with
      | none => parseLoopAux f rest i
      | some (spk, txt) =>
        mkSegment i t spk txt ::
          parseLoopAux f (rest.drop (rest.takeWhile isChrTok).length) (i + 1) := rfl

/-- If no token position starts a full match of the segment pattern,
the parse loop produces nothing. -/
theorem parseLoopAux_no_match (fuel : Nat) :
    ∀ (l : List Tok) (i : Nat), (l.tails.all fun s => !matchesAt s) = true →
      parseLoopAux fuel l i = [] := by
  induction fuel with
  | zero => intro l _ _; rfl
  | succ f ih =>
    intro l i hall
    cases l with
    | nil => rfl
    | cons tk rest =>
      rw [List.tails_cons, List.all_cons] at hall
      obtain ⟨hhead, hrest⟩ := (Bool.and_eq_true _ _).mp hall
      cases tk with
      | chr c => exact ih rest i hrest
      | tstamp t =>
        have hsp : matchSpeaker (leadChars rest) = none := by
          cases hspk : matchSpeaker (leadChars rest) with
          | none => rfl
          | some v =>
            have : matchesAt (Tok.tstamp t :: rest) = true := by
              simp [matchesAt, hspk]
            simp [this] at hhead
        rw [parseLoopAux_tstamp, hsp]
        exact ih rest i hrest

/-! ## Claims -/

/-- C2: For every chunk's raw text, timestamp reconciliation parses
each embedded bracketed tag into (h,m,s,ms), increments it by the
chunk's start offset (whole seconds), and re-renders it in the same
bracketed `[HH:MM:SS.mmm]` format (first conjunct: the substitution
replaces exactly the scanned tags, keeping all other text; second
conjunct: each replaced tag re-parses to the original time plus the
offset, whenever the result stays below the 100-hour two-digit limit),
so every timestamp in the merged text is relative to the whole audio
file; in particular a tag at relative 00:01:00.000 in the third chunk
(chunk length 10 min, start offset `2 * CHUNK_LENGTH_MS / 1000`
seconds) renders as 00:21:00.000. -/
theorem c2_timestamp_reconciliation :
    (∀ (s : String) (off : Nat),
        (_offset_timestamps s off).data =
          ((tokenize s.data).map (offTok (off * 1000))).flatten)
    ∧ (∀ (off : Nat) (t : TsTag), t.totalMs + off * 1000 < 360000000 →
        ∃ u : TsTag, matchTag (offsetTag (off * 1000) t) = some u
          ∧ u.totalMs = t.totalMs + off * 1000)
    ∧ _offset_timestamps "[00:01:00.000] আলোচনা" (2 * CHUNK_LENGTH_MS / 1000) =
        "[00:21:00.000] আলোচনা" := by
  refine ⟨?_, ?_, by decide⟩
  · intro s off
    exact offsetLoop_eq_tokens (off * 1000) s.data
  · intro off t hlt
    obtain ⟨u, hu, hh, hm2, hs2, hx⟩ :=
      matchTag_renderTag ((t.totalMs + off * 1000) / 1000 / 3600)
        ((t.totalMs + off * 1000) / 1000 % 3600 / 60)
        ((t.totalMs + off * 1000) / 1000 % 60) ((t.totalMs + off * 1000) % 1000)
        (by omega) (by omega) (by omega) (by omega)
    refine ⟨u, hu, ?_⟩
    rw [TsTag.totalMs, hh, hm2, hs2, hx]
    omega

/-- Witness for C2 at a concrete tag and offset: the tag
`[00:01:00.000]` offset by 1200 s re-parses to 60000 ms + 1200000 ms. -/
theorem c2_timestamp_reconciliation_witness :
    ∃ u : TsTag,
      matchTag (offsetTag (1200 * 1000) ⟨'0', '0', '0', '1', '0', '0', '0', '0', '0'⟩) = some u
        ∧ u.totalMs = TsTag.totalMs ⟨'0', '0', '0', '1', '0', '0', '0', '0', '0'⟩ + 1200 * 1000 :=
  c2_timestamp_reconciliation.2.1 1200 ⟨'0', '0', '0', '1', '0', '0', '0', '0', '0'⟩ (by decide)

/-- C3: Parsing the exact text
`[00:00:05.000] বক্তা ১: hello\n[00:00:10.000] বক্তা ২: world` yields
exactly two segments with `time_sec` 5 and 10 (stored as 5000 ms and
10000 ms) and the speaker/text fields of the two lines (the parser
stores the speaker label with its trailing colon separator). -/
theorem c3_parser_round_trip :
    parse_timestamped_transcription
        "[00:00:05.000] বক্তা ১: hello\n[00:00:10.000] বক্তা ২: world" =
      [{ id := "segment_0", time_ms := 5000, timestamp := "[00:00:05]",
         speaker := "বক্তা ১:", text := "hello" },
       { id := "segment_1", time_ms := 10000, timestamp := "[00:00:10]",
         speaker := "বক্তা ২:", text := "world" }]
    ∧ (parse_timestamped_transcription
        "[00:00:05.000] বক্তা ১: hello\n[00:00:10.000] বক্তা ২: world").map
          Segment.time_sec = [5, 10] := by
  have h1 : parse_timestamped_transcription
      "[00:00:05.000] বক্তা ১: hello\n[00:00:10.000] বক্তা ২: world" =
      [{ id := "segment_0", time_ms := 5000, timestamp := "[00:00:05]",
         speaker := "বক্তা ১:", text := "hello" },
       { id := "segment_1", time_ms := 10000, timestamp := "[00:00:10]",
         speaker := "বক্তা ২:", text := "world" }] := by decide
  refine ⟨h1, ?_⟩
  rw [h1]
  simp only [List.map_cons, List.map_nil, Segment.time_sec]
  norm_num

/-- C5: The transcript parser is a total function (it is defined for
every input string), and for the empty string, or for any string in
which no position carries a full match of the timestamp-speaker
pattern, it returns the empty segment list. -/
theorem c5_parser_total_and_empty :
    parse_timestamped_transcription "" = []
    ∧ ∀ raw_text : String,
        ((tokenize raw_text.data).tails.all fun s => !matchesAt s) = true →
        parse_timestamped_transcription raw_text = [] := by
  refine ⟨rfl, ?_⟩
  intro raw_text h
  exact parseLoopAux_no_match _ _ 0 h

/-- Witness for C5: a concrete unmatchable string parses to `[]`. -/
theorem c5_parser_total_and_empty_witness :
    (((tokenize ("no timestamps here, just prose").data).tails.all
        fun s => !matchesAt s) = true)
    ∧ parse_timestamped_transcription "no timestamps here, just prose" = [] :=
  ⟨by decide, c5_parser_total_and_empty.2 "no timestamps here, just prose" (by decide)⟩

/-- Concrete API oracle for the C1 scenario: chunk 0 is blocked (the
client returns its `Error: ...` string, app.py lines 167-170), chunk 1
succeeds with one spoken line. -/
def c1Oracle : Nat → List Char := fun i =>
  if i = 0 then "Error: Chunk transcription failed (Reason: SAFETY).".data
  else "[00:00:05.000] বক্তা ১: hello".data

/-- C1 (refuted as stated — a code bug): in a two-chunk run
(duration 1,200,000 ms) where chunk 0's API call reports a block
reason, the loop does substitute the sentinel failed line at chunk 0's
start offset inside the merged raw text and continues with chunk 1
(first two conjuncts), but the pipeline's parser then yields NO
segment for the failed chunk: the merged text parses to exactly the
single chunk-1 segment, and the sentinel line alone parses to `[]`
(last two conjuncts).  The sentinel speaker `বক্তা ?` matches neither
alternative of the speaker pattern `(বক্তা\s*\d+|\?+)`, while app.py
line 342 expects the parsed speaker `"বক্তা ?:"` to occur — so the
claim's intended "exactly one sentinel failed-segment at the chunk's
start offset" is violated by the code. -/
theorem c1_sentinel_segment_dropped :
    num_chunks 1200000 = 2
    ∧ containsSeq (sentinel_line 0) (transcribe_audio_with_gemini_long c1Oracle 1200000) = true
    ∧ parse_timestamped_transcription
        (String.mk (transcribe_audio_with_gemini_long c1Oracle 1200000)) =
      [{ id := "segment_0", time_ms := 605000, timestamp := "[00:10:05]",
         speaker := "বক্তা ১:", text := "hello" }]
    ∧ parse_timestamped_transcription (String.mk (sentinel_line 0)) = [] := by
  refine ⟨by decide, by decide, by decide, by decide⟩

/-- Arithmetic facts about the ceiling chunk count for long audio. -/
theorem num_chunks_bounds (d : Nat) (hd : CHUNK_LENGTH_MS < d) :
    d ≤ num_chunks d * CHUNK_LENGTH_MS
      ∧ num_chunks d * CHUNK_LENGTH_MS < d + CHUNK_LENGTH_MS
      ∧ 2 ≤ num_chunks d := by
  have hCL : CHUNK_LENGTH_MS = 600000 := rfl
  have hdm := Nat.div_add_mod (d + 600000 - 1) 600000
  have hmod : (d + 600000 - 1) % 600000 < 600000 := Nat.mod_lt _ (by norm_num)
  simp only [num_chunks, hCL] at *
  omega

/-- C4: For every duration at most one chunk length the orchestrator
produces exactly one chunk; for every duration strictly greater it
produces exactly `ceil(duration / chunk length)` chunks; the chunk
windows are contiguous (each ends where the next starts) and
well-formed, hence non-overlapping. -/
theorem c4_chunk_count :
    (∀ d : Nat, d ≤ CHUNK_LENGTH_MS → (chunk_bounds d).length = 1)
    ∧ (∀ d : Nat, CHUNK_LENGTH_MS < d →
        ((chunk_bounds d).length : ℤ) = ⌈(d : ℚ) / (CHUNK_LENGTH_MS : ℚ)⌉)
    ∧ (∀ d : Nat, List.Chain' (fun p q : Nat × Nat => p.2 = q.1) (chunk_bounds d))
    ∧ (∀ d : Nat, ∀ p ∈ chunk_bounds d, p.1 ≤ p.2) := by
  have hCL : CHUNK_LENGTH_MS = 600000 := rfl
  have hpos : (0 : ℚ) < (CHUNK_LENGTH_MS : ℚ) := by rw [hCL]; norm_num
  refine ⟨?_, ?_, ?_, ?_⟩
  · intro d hd
    simp [chunk_bounds, hd]
  · intro d hd
    obtain ⟨hA, hB, _⟩ := num_chunks_bounds d hd
    have hlen : (chunk_bounds d).length = num_chunks d := by
      simp [chunk_bounds, not_le.mpr hd]
    rw [hlen]
    symm
    rw [Int.ceil_eq_iff]
    constructor
    · rw [lt_div_iff₀ hpos]
      have hBq : ((num_chunks d : ℚ)) * (CHUNK_LENGTH_MS : ℚ) <
          (d : ℚ) + (CHUNK_LENGTH_MS : ℚ) := by exact_mod_cast hB
      push_cast
      linarith
    · rw [div_le_iff₀ hpos]
      push_cast
      exact_mod_cast hA
  · intro d
    by_cases hd : d ≤ CHUNK_LENGTH_MS
    · simp [chunk_bounds, hd]
    · obtain ⟨hA, hB, h2⟩ := num_chunks_bounds d (not_le.mp hd)
      simp only [chunk_bounds, if_neg hd]
      rw [List.chain'_map]
      obtain ⟨k, hk⟩ := Nat.exists_eq_succ_of_ne_zero (show num_chunks d ≠ 0 by omega)
      rw [hk, List.chain'_range_succ]
      intro m hm
      show min ((m + 1) * CHUNK_LENGTH_MS) d = (m + 1) * CHUNK_LENGTH_MS
      apply min_eq_left
      rw [hCL] at *
      omega
  · intro d p hp
    by_cases hd : d ≤ CHUNK_LENGTH_MS
    · simp only [chunk_bounds, if_pos hd, List.mem_singleton] at hp
      subst hp
      exact Nat.zero_le d
    · obtain ⟨hA, hB, h2⟩ := num_chunks_bounds d (not_le.mp hd)
      simp only [chunk_bounds, if_neg hd, List.mem_map, List.mem_range] at hp
      obtain ⟨i, hi, rfl⟩ := hp
      apply le_min
      · rw [hCL] at *; omega
      · rw [hCL] at *; omega

/-- Witness for C4: a 10-minute input gives one chunk, a 25-minute
input gives `⌈25/10⌉ = 3` chunks. -/
theorem c4_chunk_count_witness :
    (chunk_bounds 600000).length = 1
    ∧ ((chunk_bounds 1500000).length : ℤ) = ⌈(1500000 : ℚ) / (CHUNK_LENGTH_MS : ℚ)⌉ :=
  ⟨c4_chunk_count.1 600000 (by decide), c4_chunk_count.2.1 1500000 (by decide)⟩

/-- C6: If the translation API reply is malformed (json decoding
fails) or decodes to an array whose length differs from the number of
input segments, `_translate_text_with_gemini` returns no translated
data and the caller keeps displaying the original untranslated
segments. -/
theorem c6_translation_failure_discard (transcript_data : List Segment) :
    (_translate_text_with_gemini transcript_data none = none
      ∧ displayAfterTranslate transcript_data none = transcript_data)
    ∧ ∀ ts : List String, ts.length ≠ transcript_data.length →
        _translate_text_with_gemini transcript_data (some ts) = none
          ∧ displayAfterTranslate transcript_data (some ts) = transcript_data := by
  refine ⟨⟨rfl, rfl⟩, ?_⟩
  intro ts h
  have h1 : _translate_text_with_gemini transcript_data (some ts) = none := by
    simp [_translate_text_with_gemini, h]
  refine ⟨h1, ?_⟩
  simp [displayAfterTranslate, h1]

/-- Witness for C6: a one-element reply for an empty segment list is a
length mismatch and is discarded. -/
theorem c6_translation_failure_discard_witness :
    _translate_text_with_gemini [] (some ["x"]) = none
      ∧ displayAfterTranslate [] (some ["x"]) = [] :=
  (c6_translation_failure_discard []).2 ["x"] (by decide)

/-- C7: Creating a user whose username already exists returns a
validation-failure result (`False` plus a message — the total function
returns, it does not raise) and leaves the user table unchanged;
creating a user with a fresh username succeeds and appends exactly
that user. -/
theorem c7_add_new_user (hash : String → String) (db : List User)
    (username password role : String) (newId : Nat) :
    ((∃ u ∈ db, u.username = username) →
        (add_new_user hash db username password role newId).1.1 = false
          ∧ (add_new_user hash db username password role newId).2 = db)
    ∧ ((∀ u ∈ db, u.username ≠ username) →
        (add_new_user hash db username password role newId).1.1 = true
          ∧ (add_new_user hash db username password role newId).2 =
              db ++ [{ id := newId, username := username,
                       hashed_password := hash password, role := role }]) := by
  constructor
  · intro hex
    have hc : db.any (fun u => u.username == username) = true := by
      rw [List.any_eq_true]
      obtain ⟨u, hu, he⟩ := hex
      exact ⟨u, hu, by simp [he]⟩
    simp [add_new_user, hc]
  · intro hall
    have hc : ¬ db.any (fun u => u.username == username) = true := by
      intro hc
      rw [List.any_eq_true] at hc
      obtain ⟨u, hu, he⟩ := hc
      exact hall u hu (by simpa using he)
    rw [Bool.not_eq_true] at hc
    simp [add_new_user, hc]

/-- A sample user row for the C7 witness. -/
def userW : User := { id := 1, username := "alice", hashed_password := "h", role := "user" }

/-- Witness for C7: duplicate `alice` is rejected and the table kept;
fresh `bob` is appended. -/
theorem c7_add_new_user_witness :
    ((add_new_user id [userW] "alice" "pw" "user" 2).1.1 = false
        ∧ (add_new_user id [userW] "alice" "pw" "user" 2).2 = [userW])
    ∧ ((add_new_user id [userW] "bob" "pw" "user" 2).1.1 = true
        ∧ (add_new_user id [userW] "bob" "pw" "user" 2).2 =
            [userW] ++ [{ id := 2, username := "bob", hashed_password := id "pw",
                          role := "user" }]) :=
  ⟨(c7_add_new_user id [userW] "alice" "pw" "user" 2).1 ⟨userW, by decide, rfl⟩,
   (c7_add_new_user id [userW] "bob" "pw" "user" 2).2 (by decide)⟩

/-- C10: When the decoded translation reply has exactly as many
strings as there are segments, the translation succeeds and returns a
segment list of the same length in which every segment keeps the
input's `id`, `time_sec`, `timestamp` and `speaker` fields and only
`text` is replaced by the corresponding translated string. -/
theorem c10_translation_preserves_fields (transcript_data : List Segment) (ts : List String)
    (h : ts.length = transcript_data.length) :
    ∃ out : List Segment,
      _translate_text_with_gemini transcript_data (some ts) = some out
        ∧ out.length = transcript_data.length
        ∧ ∀ (i : Nat) (s : Segment) (t : String) (o : Segment),
            transcript_data[i]? = some s → ts[i]? = some t → out[i]? = some o →
            o.id = s.id ∧ o.time_sec = s.time_sec ∧ o.timestamp = s.timestamp
              ∧ o.speaker = s.speaker ∧ o.text = t := by
  refine ⟨List.zipWith (fun segment t => { segment with text := t }) transcript_data ts,
    ?_, ?_, ?_⟩
  · simp [_translate_text_with_gemini, h]
  · simp [List.length_zipWith, h]
  · intro i s t o hs ht ho
    rw [List.getElem?_zipWith, hs, ht] at ho
    simp only [Option.some.injEq] at ho
    subst ho
    simp [Segment.time_sec]

/-- In a list sorted by `byNewest`, an element with a strictly larger
creation time occurs at a strictly earlier position than one with a
smaller creation time. -/
theorem sorted_byNewest_before {l : List Transcript} (hs : l.Sorted byNewest)
    {a b : Transcript} (ha : a ∈ l) (hb : b ∈ l) (hab : b.created_at < a.created_at) :
    ∃ i j : Fin l.length, i < j ∧ l.get i = a ∧ l.get j = b := by
  obtain ⟨i, hi⟩ := List.mem_iff_get.mp ha
  obtain ⟨j, hj⟩ := List.mem_iff_get.mp hb
  rcases lt_trichotomy i j with h | h | h
  · exact ⟨i, j, h, hi, hj⟩
  · exfalso
    have hone : a = b := by rw [← hi, h, hj]
    rw [hone] at hab
    exact lt_irrefl _ hab
  · exfalso
    have hrel := List.pairwise_iff_get.mp hs j i h
    rw [hi, hj] at hrel
    simp only [byNewest] at hrel
    omega

/-- C8: Listing an owner's transcripts returns exactly the rows with
that `owner_id` (a permutation of the filtered table), ordered by
creation time descending; after saving a new transcript, the owner's
next listing contains its row, the row's creation time is at least the
save time, and the row is ordered before every strictly older
transcript of the same owner. -/
theorem c8_list_and_save (db : List Transcript) (uid : Nat) (title filename : String)
    (content : List Segment) (newId now : Nat) :
    ((get_user_transcripts db uid).Perm (db.filter (fun t => t.owner_id == uid))
      ∧ (get_user_transcripts db uid).Sorted byNewest)
    ∧ savedRow uid title filename content newId now ∈
        get_user_transcripts (save_transcript_to_db db uid title filename content newId now) uid
    ∧ now ≤ (savedRow uid title filename content newId now).created_at
    ∧ ∀ t ∈ db, t.owner_id = uid → t.created_at < now →
        ∃ i j : Fin (get_user_transcripts
            (save_transcript_to_db db uid title filename content newId now) uid).length,
          i < j
          ∧ (get_user_transcripts (save_transcript_to_db db uid title filename content newId now)
                uid).get i = savedRow uid title filename content newId now
          ∧ (get_user_transcripts (save_transcript_to_db db uid title filename content newId now)
                uid).get j = t := by
  have hperm : ∀ (d : List Transcript) (o : Nat),
      (get_user_transcripts d o).Perm (d.filter (fun t => t.owner_id == o)) :=
    fun d o => List.perm_insertionSort byNewest _
  have hsorted : ∀ (d : List Transcript) (o : Nat),
      (get_user_transcripts d o).Sorted byNewest :=
    fun d o => List.sorted_insertionSort byNewest _
  refine ⟨⟨hperm db uid, hsorted db uid⟩, ?_, le_refl _, ?_⟩
  · apply (hperm _ _).mem_iff.mpr
    apply List.mem_filter.mpr
    refine ⟨?_, by simp [savedRow]⟩
    exact List.mem_append_right _ (List.mem_singleton_self _)
  · intro t ht howner holder
    have hnew : savedRow uid title filename content newId now ∈
        get_user_transcripts (save_transcript_to_db db uid title filename content newId now)
          uid := by
      apply (hperm _ _).mem_iff.mpr
      apply List.mem_filter.mpr
      refine ⟨?_, by simp [savedRow]⟩
      exact List.mem_append_right _ (List.mem_singleton_self _)
    have hold : t ∈
        get_user_transcripts (save_transcript_to_db db uid title filename content newId now)
          uid := by
      apply (hperm _ _).mem_iff.mpr
      apply List.mem_filter.mpr
      refine ⟨List.mem_append_left _ ht, by simp [howner]⟩
    exact sorted_byNewest_before (hsorted _ _) hnew hold
      (by simpa [savedRow] using holder)

/-- A pre-existing transcript row for the C8 witness. -/
def oldRow : Transcript :=
  { id := 1, title := "old", original_filename := "o.wav", content := [],
    created_at := 3, owner_id := 7 }

/-- Witness for C8: saving at time 5 for owner 7 places the new row
before the owner's older row from time 3. -/
theorem c8_list_and_save_witness :
    ∃ i j : Fin (get_user_transcripts
        (save_transcript_to_db [oldRow] 7 "new" "n.wav" [] 2 5) 7).length,
      i < j
      ∧ (get_user_transcripts (save_transcript_to_db [oldRow] 7 "new" "n.wav" [] 2 5) 7).get i =
          savedRow 7 "new" "n.wav" [] 2 5
      ∧ (get_user_transcripts (save_transcript_to_db [oldRow] 7 "new" "n.wav" [] 2 5) 7).get j =
          oldRow :=
  (c8_list_and_save [oldRow] 7 "new" "n.wav" [] 2 5).2.2.2 oldRow
    (List.mem_singleton_self _) rfl (by decide)

/-- C9: Deleting a stored transcript row (`row ∈ db` with primary key
`tid`; ids are unique) reports success, removes every row with that id
from the owner's subsequent listings, and leaves the listing of every
other owner unchanged. -/
theorem c9_delete_transcript (db : List Transcript) (tid : Nat) (row : Transcript)
    (huniq : db.Pairwise (fun a b => a.id ≠ b.id))
    (hmem : row ∈ db) (hid : row.id = tid) :
    (delete_transcript_from_db db tid).1 = true
    ∧ (∀ t ∈ get_user_transcripts (delete_transcript_from_db db tid).2 row.owner_id,
        t.id ≠ tid)
    ∧ (∀ o2 : Nat, o2 ≠ row.owner_id →
        get_user_transcripts (delete_transcript_from_db db tid).2 o2 =
          get_user_transcripts db o2) := by
  have hp : (fun t : Transcript => t.id == tid) row = true := by simp [hid]
  obtain ⟨a, l1, l2, hnone, hpa, hdecomp, herase⟩ :=
    @List.exists_of_eraseP _ (fun t => t.id == tid) db row hmem hp
  obtain ⟨x, hx⟩ : ∃ x, db.find? (fun t => t.id == tid) = some x :=
    Option.isSome_iff_exists.mp (by rw [List.find?_isSome]; exact ⟨row, hmem, hp⟩)
  have hdel : delete_transcript_from_db db tid =
      (true, db.eraseP (fun t => t.id == tid)) := by
    simp [delete_transcript_from_db, hx]
  have haid : a.id = tid := by simpa using hpa
  have hamem : a ∈ db := by
    rw [hdecomp]; exact List.mem_append_right _ (List.mem_cons_self _ _)
  have harow : a = row := by
    by_contra hne
    exact List.Pairwise.forall (fun u v huv => Ne.symm huv) huniq hamem hmem hne
      (by rw [haid, hid])
  subst harow
  rw [hdecomp] at huniq
  rw [List.pairwise_append] at huniq
  obtain ⟨hp1, hp2, hcross⟩ := huniq
  refine ⟨by rw [hdel], ?_, ?_⟩
  · intro t htmem
    rw [hdel] at htmem
    have ht2 := (List.perm_insertionSort byNewest _).mem_iff.mp htmem
    have ht3 := (List.mem_filter.mp ht2).1
    rw [herase] at ht3
    rcases List.mem_append.mp ht3 with h1 | h2
    · intro he
      exact (hcross t h1 a (List.mem_cons_self _ _)) (by rw [he, haid])
    · intro he
      exact ((List.pairwise_cons.mp hp2).1 t h2) (by rw [haid, he])
  · intro o2 ho2
    rw [hdel]
    have hfalse : (a.owner_id == o2) = false := beq_eq_false_iff_ne.mpr (Ne.symm ho2)
    have hfeq : (db.eraseP (fun t => t.id == tid)).filter (fun t => t.owner_id == o2) =
        db.filter (fun t => t.owner_id == o2) := by
      rw [herase, hdecomp]
      simp [List.filter_append, List.filter_cons, hfalse]
    rw [get_user_transcripts, get_user_transcripts, hfeq]

/-- Two transcript rows of different owners for the C9 witness. -/
def rowW1 : Transcript :=
  { id := 2, title := "a", original_filename := "a.wav", content := [],
    created_at := 4, owner_id := 7 }

/-- Second row for the C9 witness. -/
def rowW2 : Transcript :=
  { id := 3, title := "b", original_filename := "b.wav", content := [],
    created_at := 6, owner_id := 8 }

/-- Witness for C9: deleting id 2 (owner 7) from a two-owner table. -/
theorem c9_delete_transcript_witness :
    (delete_transcript_from_db [rowW1, rowW2] 2).1 = true
    ∧ (∀ t ∈ get_user_transcripts (delete_transcript_from_db [rowW1, rowW2] 2).2 rowW1.owner_id,
        t.id ≠ 2)
    ∧ (∀ o2 : Nat, o2 ≠ rowW1.owner_id →
        get_user_transcripts (delete_transcript_from_db [rowW1, rowW2] 2).2 o2 =
          get_user_transcripts [rowW1, rowW2] o2) :=
  c9_delete_transcript [rowW1, rowW2] 2 rowW1 (by decide) (by decide) rfl

/-- A sample segment for the C10 witness. -/
def segW : Segment :=
  { id := "segment_0", time_ms := 5000, timestamp := "[00:00:05]",
    speaker := "বক্তা ১:", text := "hello" }

/-- Witness for C10 at a one-segment list. -/
theorem c10_translation_preserves_fields_witness :
    ∃ out : List Segment,
      _translate_text_with_gemini [segW] (some ["hi"]) = some out
        ∧ out.length = ([segW] : List Segment).length
        ∧ ∀ (i : Nat) (s : Segment) (t : String) (o : Segment),
            ([segW] : List Segment)[i]? = some s → (["hi"] : List String)[i]? = some t →
              out[i]? = some o →
            o.id = s.id ∧ o.time_sec = s.time_sec ∧ o.timestamp = s.timestamp
              ∧ o.speaker = s.speaker ∧ o.text = t :=
  c10_translation_preserves_fields [segW] ["hi"] rfl

end App
